import Mathlib

/-!
Verification of the doctree Python indexer (`pythonIndexer.IndexDir`).

This file gives a shallow embedding, in Lean 4, of the Python language
indexer of the doctree repository (`cmd/doctree/search.go`, package
`python`: `pythonIndexer.IndexDir` together with its helpers
`sanitizeDocs`, `firstCaptureContentOr`, `joinCaptures`), and proves or
refutes the structural claims made about it.

Modelling conventions:

* The filesystem walked by `fs.WalkDir` is a `DirFS`: the list of files
  found under `dir`, in the (deterministic, lexical) order `fs.WalkDir`
  visits them, each with its path relative to `dir`, plus an optional
  walk error.  Reading a file either yields its content or a
  `*fs.PathError` (operation `open`, the file's path, an OS message),
  matching `os.DirFS`.
* The tree-sitter layer is abstracted: a file's content is carried as
  its byte length together with the result of the two tree-sitter
  queries that `IndexDir` runs against the parse tree — the optional
  module docstring capture and the ordered list of module-level
  `function_definition` captures (name, parameters, optional return
  type, optional docstring).  This follows the spec's scoping, which
  places the grammar engine outside the core: `IndexDir`'s own logic
  starts from the query captures.
* `parser.ParseCtx(ctx, nil, content)` fails exactly when the supplied
  context has been cancelled; the error it returns is the context's
  error (`context canceled`), which mentions no file path because
  `ParseCtx` is never given one.  A context is modelled by the index of
  the parse call from which cancellation is observed (`Ctx := Option
  Nat`, `none` = never cancelled).
* Go's `map` ranges over its keys in an unspecified order.  `mods` is
  modelled as an insertion-ordered association list with in-place
  update, and the `for modName, moduleInfo := range mods` loop is
  parameterised by the range order `σ`, constrained only to be a
  permutation — exactly what the Go runtime guarantees.
-/

/-! ## String helpers (byte-for-byte models of the Go stdlib calls used) -/

/-- Models `strings.Contains(s, sub)`: `sub` occurs as a contiguous substring of `s`.
All needles used by `IndexDir` are ASCII, for which byte-level and
character-level containment coincide on UTF-8 input. -/
def stringsContains (s sub : String) : Bool :=
  decide (sub.data <:+: s.data)

/-- Models `strings.TrimSuffix(s, suffix)`: remove `suffix` once, if present. -/
def stringsTrimSuffix (s suffix : String) : String :=
  if suffix.data <:+ s.data then
    String.mk (s.data.take (s.data.length - suffix.data.length))
  else s

/-- Models `strings.TrimPrefix(s, pre)`: remove `pre` once, if present. -/
def stringsTrimPrefixFn (s pre : String) : String :=
  if pre.data <+: s.data then String.mk (s.data.drop pre.data.length) else s

/-- Models `strings.ReplaceAll(s, old, new)` for single-character `old`/`new`
(the only use in `IndexDir` is `ReplaceAll(…, "/", ".")`). -/
def stringsReplaceAllChar (s : String) (old new : Char) : String :=
  String.mk (s.data.map fun c => if c = old then new else c)

/-- Helper for `filepath.Ext`: scan the path backwards; stop at a path
separator, return from the first dot found. `acc` holds the characters
already passed, in original order. -/
def filepathExtAux : List Char → List Char → String
  | [], _ => ""
  | c :: rest, acc =>
    if c = '/' then ""
    else if c = '.' then String.mk (c :: acc)
    else filepathExtAux rest (c :: acc)

/-- Models `filepath.Ext(path)`: the suffix of the final path element starting
at its final dot, or `""` if the final element has no dot. -/
def filepathExt (p : String) : String :=
  filepathExtAux p.data.reverse []

/-- First byte of a Go string is `'_'` (`funcName[0] == '_'`). -/
def headIsUnderscore (s : String) : Bool :=
  match s.data with
  | [] => false
  | c :: _ => c = '_'

/-- Last byte of a Go string is `'_'` (`funcName[len(funcName)-1] == '_'`). -/
def lastIsUnderscore (s : String) : Bool :=
  match s.data.getLast? with
  | some c => c = '_'
  | none => false

/-! ## Schema model (`doctree/schema`)

Only the fields `IndexDir` writes are relevant; they are all carried.
`schema.Markdown` is a string. -/

/-- Models `schema.Markdown`. -/
def Markdown := String
deriving DecidableEq

/-- Models `schema.Section`: a node of the recursive documentation tree.
Fields in source order: `ID`, `ShortLabel`, `Label`, `Detail`,
`SearchKey`, `Category`, `Children`. -/
inductive Section where
  | mk (ID : String) (ShortLabel : String) (Label : String) (Detail : String)
      (SearchKey : List String) (Category : Bool) (Children : List Section)

/-- Projection `Section.ID`. -/
def Section.ID : Section → String
  | .mk i _ _ _ _ _ _ => i

/-- Projection `Section.ShortLabel`. -/
def Section.ShortLabel : Section → String
  | .mk _ s _ _ _ _ _ => s

/-- Projection `Section.Label`. -/
def Section.Label : Section → String
  | .mk _ _ l _ _ _ _ => l

/-- Projection `Section.Detail`. -/
def Section.Detail : Section → String
  | .mk _ _ _ d _ _ _ => d

/-- Projection `Section.SearchKey`. -/
def Section.SearchKey : Section → List String
  | .mk _ _ _ _ k _ _ => k

/-- Projection `Section.Category`. -/
def Section.Category : Section → Bool
  | .mk _ _ _ _ _ c _ => c

/-- Projection `Section.Children`. -/
def Section.Children : Section → List Section
  | .mk _ _ _ _ _ _ ch => ch

/-- Models `schema.Page`. -/
structure Page where
  Path : String
  Title : String
  Detail : String
  SearchKey : List String
  Sections : List Section

/-- Models `schema.Library`. -/
structure Library where
  Name : String
  Repository : String
  ID : String
  Version : String
  VersionType : String
  Pages : List Page

/-- Models `schema.Index`. -/
structure Index where
  SchemaVersion : Nat
  Language : String
  NumFiles : Nat
  NumBytes : Nat
  Libraries : List Library

/-- Models the constant `schema.LatestVersion` (its exact value is
irrelevant to every claim; the indexer merely copies it). -/
def LatestVersion : Nat := 1

/-- Models `schema.LanguagePython`'s tag. -/
def LanguagePython : String := "python"

/-! ## Python indexer model (`cmd/doctree/search.go`, package `python`) -/

/-- Captures of one `function_definition` query match (search.go lines
183–215): required `@func_name` and `@func_params`, optional
`@func_result` and `@func_docs`. -/
structure PyFunc where
  name : String
  params : String
  result : Option String
  docs : Option String

/-- Result of the two tree-sitter queries over one parsed file: the
optional module docstring capture, and the module-level function
definitions in document order. -/
structure PyModule where
  docstring : Option String
  funcs : List PyFunc

/-- Outcome of `fs.ReadFile` on one file: the content (abstracted to its
byte length plus its query captures), or the OS error message of the
`*fs.PathError` that `os.DirFS` produces. -/
inductive FileContent where
  | ok (size : Nat) (parsed : PyModule)
  | readError (osMsg : String)

/-- One file found by the directory walk: its path relative to `dir`,
and what reading it yields. -/
structure FileEntry where
  path : String
  content : FileContent

/-- Models `*fs.PathError`: operation, path, underlying message; its
`Error()` string is `op + " " + path + ": " + msg`. -/
structure PathErr where
  op : String
  path : String
  msg : String

/-- Rendering of `(*fs.PathError).Error()`. -/
def PathErr.message (e : PathErr) : String :=
  e.op ++ " " ++ e.path ++ ": " ++ e.msg

/-- Models the directory contents seen by `fs.WalkDir(os.DirFS(dir), ".")`:
the files in walk order (lexical, hence fixed by the directory contents),
plus an optional walk failure. -/
structure DirFS where
  files : List FileEntry
  walkError : Option PathErr

/-- Models a `context.Context` as observed by the per-file
`parser.ParseCtx` calls: `none` is a context that is never cancelled;
`some k` is a context whose cancellation is first observed by parse
call number `k` (calls are numbered from 0, and cancellation persists). -/
abbrev Ctx := Option Nat

/-- Whether the parse call with index `parseIdx` observes the context as
cancelled (in which case `ParseCtx` returns `ctx.Err()`). -/
def ctxCancelled (ctx : Ctx) (parseIdx : Nat) : Bool :=
  match ctx with
  | none => false
  | some k => decide (k ≤ parseIdx)

/-- Errors returned by `IndexDir`, each wrapping an underlying message
with `errors.Wrap` and the operation name (search.go lines 108, 122, 135). -/
inductive IndexError where
  | walkDir (underlying : String)
  | readFile (underlying : String)
  | parseCtx (underlying : String)

/-- Rendering of `errors.Wrap(err, op).Error()` for each `IndexDir` failure. -/
def IndexError.message : IndexError → String
  | .walkDir s => "WalkDir: " ++ s
  | .readFile s => "ReadFile: " ++ s
  | .parseCtx s => "ParseCtx: " ++ s

/-- Models `moduleInfo` (search.go lines 280–283). -/
structure ModuleInfo where
  path : String
  docs : String

/-- Test-fixture skip heuristic (search.go line 116):
`strings.Contains(path, "test_") || strings.Contains(path, "_test") || strings.Contains(path, "tests")`. -/
def isTestPath (p : String) : Bool :=
  stringsContains p "test_" || stringsContains p "_test" || stringsContains p "tests"

/-- Models `sanitizeDocs` (search.go lines 276–278). -/
def sanitizeDocs (s : String) : String :=
  stringsTrimSuffix (stringsTrimPrefixFn s "\x22\x22\x22") "\x22\x22\x22"

/-- Models `joinCaptures(content, captures, sep)` for a capture list of
length 0 or 1 (the docstring captures): `strings.Join` of no strings is
`""`. -/
def joinCaptures (c : Option String) : String := c.getD ""

/-- Models `firstCaptureContentOr` (search.go lines 285–290). -/
def firstCaptureContentOr (c : Option String) (defaultValue : String) : String :=
  c.getD defaultValue

/-- Module name computation (search.go line 175):
`strings.ReplaceAll(strings.TrimSuffix(path, ".py"), "/", ".")`. -/
def modNameFor (path : String) : String :=
  stringsReplaceAllChar (stringsTrimSuffix path ".py") '/' '.'

/-- Visibility filter (search.go line 217):
`len(funcName) > 0 && funcName[0] == '_' && funcName[len(funcName)-1] != '_'`. -/
def funcIsPrivate (funcName : String) : Bool :=
  decide (0 < funcName.data.length) && headIsUnderscore funcName
    && !lastIsUnderscore funcName

/-- Builds the `schema.Section` for one retained function match
(search.go lines 211–232). -/
def funcSection (modName : String) (f : PyFunc) : Section :=
  let funcDocs := sanitizeDocs (joinCaptures f.docs)
  let funcName := f.name
  let funcParams := firstCaptureContentOr f.params ""
  let funcResult := firstCaptureContentOr f.result ""
  let funcLabel :=
    if funcResult ≠ "" then "def " ++ funcName ++ funcParams ++ " -> " ++ funcResult
    else "def " ++ funcName ++ funcParams
  Section.mk funcName funcName funcLabel funcDocs [modName, ".", funcName] false []

/-- The function-definition loop of one file (search.go lines 204–234):
each match either hits the visibility `continue` or appends its Section
to `functionsByMod[modName]`. -/
def sectionsOfFile (modName : String) (funcs : List PyFunc) : List Section :=
  funcs.filterMap fun f =>
    if funcIsPrivate f.name then none else some (funcSection modName f)

/-- Go map assignment `m[k] = v` on an insertion-ordered association
list: overwrite in place if the key exists, else append. -/
def mapStore (l : List (String × ModuleInfo)) (k : String) (v : ModuleInfo) :
    List (String × ModuleInfo) :=
  match l with
  | [] => [(k, v)]
  | (k', v') :: rest => if k' = k then (k, v) :: rest else (k', v') :: mapStore rest k v

/-- The mutable state of the `for _, path := range sources` loop
(search.go lines 111–114), plus the number of `ParseCtx` calls made so
far (used only to interpret the cancellation model). -/
structure LoopState where
  files : Nat
  bytes : Nat
  mods : List (String × ModuleInfo)
  functionsByMod : String → List Section
  parseIdx : Nat

/-- One iteration of the source-file loop (search.go lines 115–236):
skip test fixtures, read, count, parse (observing cancellation), record
the module and its function Sections. -/
def processFile (ctx : Ctx) (st : LoopState) (f : FileEntry) :
    Except IndexError LoopState :=
  if isTestPath f.path then
    .ok st
  else
    match f.content with
    | .readError osMsg => .error (.readFile (PathErr.mk "open" f.path osMsg).message)
    | .ok size parsed =>
      let files := st.files + 1
      let bytes := st.bytes + size
      if ctxCancelled ctx st.parseIdx then
        .error (.parseCtx "context canceled")
      else
        let modName := modNameFor f.path
        let modDocs := sanitizeDocs (joinCaptures parsed.docstring)
        let mods := mapStore st.mods modName (ModuleInfo.mk f.path modDocs)
        let fbm := fun m =>
          if m = modName then
            st.functionsByMod modName ++ sectionsOfFile modName parsed.funcs
          else st.functionsByMod m
        .ok (LoopState.mk files bytes mods fbm (st.parseIdx + 1))

/-- The whole source-file loop, propagating the first error. -/
def runFiles (ctx : Ctx) : LoopState → List FileEntry → Except IndexError LoopState
  | st, [] => .ok st
  | st, f :: rest =>
    match processFile ctx st f with
    | .error e => .error e
    | .ok st' => runFiles ctx st' rest

/-- Extension test of the walk callback (search.go lines 101–104):
`ext := filepath.Ext(path); ext == ".py" || ext == ".py3"`. -/
def extMatches (path : String) : Bool :=
  filepathExt path = ".py" || filepathExt path = ".py3"

/-- The `sources` slice collected by the walk (search.go lines 95–109). -/
def sourcesOf (d : DirFS) : List FileEntry :=
  d.files.filter fun f => extMatches f.path

/-- The synthetic `functionsSection` category node (search.go lines 240–247). -/
def categorySection (children : List Section) : Section :=
  Section.mk "func" "func" "Functions" "" [] true children

/-- The `schema.Page` built for one module (search.go lines 249–255). -/
def pageFor (functionsByMod : String → List Section) (modName : String)
    (info : ModuleInfo) : Page :=
  Page.mk info.path ("Module " ++ modName) info.docs [modName]
    [categorySection (functionsByMod modName)]

/-- A Go map range order: how `for modName, moduleInfo := range mods`
enumerates the entries.  The runtime guarantees only that it is some
permutation of the entries. -/
def RangeOrder := List (String × ModuleInfo) → List (String × ModuleInfo)

/-- The range order `σ` is a possible Go map iteration order: it
enumerates exactly the stored entries, each once, in some order. -/
def RangeOrder.Valid (σ : RangeOrder) : Prop :=
  ∀ l : List (String × ModuleInfo), (σ l).Perm l

/-- Models `pythonIndexer.IndexDir` (search.go lines 93–274): walk the
directory for `.py`/`.py3` files, run the per-file loop, then emit one
Page per recorded module (in map range order `σ`) under a single
placeholder Library. -/
def IndexDir (ctx : Ctx) (σ : RangeOrder) (d : DirFS) : Except IndexError Index :=
  match d.walkError with
  | some pe => .error (.walkDir pe.message)
  | none =>
    match runFiles ctx (LoopState.mk 0 0 [] (fun _ => []) 0) (sourcesOf d) with
    | .error e => .error e
    | .ok st =>
      let pages := (σ st.mods).map fun kv => pageFor st.functionsByMod kv.1 kv.2
      .ok (Index.mk LatestVersion LanguagePython st.files st.bytes
        [Library.mk "TODO" "TODO" "TODO" "TODO" "TODO" pages])

/-! ## Derived definitions used to state the claims -/

/-- Whether `fs.ReadFile` succeeds on this file. -/
def FileEntry.readableB (f : FileEntry) : Bool :=
  match f.content with
  | .ok _ _ => true
  | .readError _ => false

/-- Byte length of a readable file (`len(content)`); `0` for an
unreadable one (never consulted in that case). -/
def FileEntry.byteLen (f : FileEntry) : Nat :=
  match f.content with
  | .ok n _ => n
  | .readError _ => 0

/-- Query captures of a readable file; empty for an unreadable one
(never consulted in that case). -/
def FileEntry.pyMod (f : FileEntry) : PyModule :=
  match f.content with
  | .ok _ pm => pm
  | .readError _ => PyModule.mk none []

/-- The discovered files that survive the test-fixture skip: exactly the
ones that are read, counted and parsed. -/
def indexedSources (d : DirFS) : List FileEntry :=
  (sourcesOf d).filter fun f => !isTestPath f.path

/-- Number of files whose parse the run performs when nothing fails. -/
def numParsedFiles (d : DirFS) : Nat := (indexedSources d).length

/-- The function Sections accumulated under module key `m` over the
whole run (`functionsByMod[m]` at loop exit). -/
def moduleFuncSections (d : DirFS) (m : String) : List Section :=
  ((indexedSources d).filter fun f => decide (modNameFor f.path = m)).flatMap
    fun f => sectionsOfFile m f.pyMod.funcs

/-- The names of the visibility-retained module-level functions
accumulated under module key `m`. -/
def moduleFuncNames (d : DirFS) (m : String) : List String :=
  ((indexedSources d).filter fun f => decide (modNameFor f.path = m)).flatMap
    fun f => (f.pyMod.funcs.filter fun fn => !funcIsPrivate fn.name).map PyFunc.name

/-- Modelled from the spec (§3, SearchKey): the canonical fully-qualified
token path of symbol `name` in module `mod` is `[mod, ".", name]`. -/
def specCanonicalPath (mod name : String) : List String := [mod, ".", name]

/-- Pure mirror of one successful, non-cancelled loop iteration of
`processFile` (used to state what the loop computes when nothing fails). -/
def stepSt (st : LoopState) (f : FileEntry) : LoopState :=
  if isTestPath f.path then st
  else
    match f.content with
    | .readError _ => st
    | .ok size parsed =>
      LoopState.mk (st.files + 1) (st.bytes + size)
        (mapStore st.mods (modNameFor f.path)
          (ModuleInfo.mk f.path (sanitizeDocs (joinCaptures parsed.docstring))))
        (fun m =>
          if m = modNameFor f.path then
            st.functionsByMod (modNameFor f.path)
              ++ sectionsOfFile (modNameFor f.path) parsed.funcs
          else st.functionsByMod m)
        (st.parseIdx + 1)

/-- Pure mirror of the whole loop. -/
def foldSt (st : LoopState) : List FileEntry → LoopState
  | [] => st
  | f :: rest => foldSt (stepSt st f) rest

/-- The loop's initial state (search.go lines 111–114). -/
def initState : LoopState := LoopState.mk 0 0 [] (fun _ => []) 0

/-- The loop state at exit, for a run in which nothing fails. -/
def finalState (d : DirFS) : LoopState := foldSt initState (sourcesOf d)

/-- All Pages of a returned Index, across its Libraries, in emitted
order; `[]` for an error result. -/
def resultPagePaths (r : Except IndexError Index) : List String :=
  match r with
  | .ok idx => idx.Libraries.flatMap fun lib => lib.Pages.map Page.Path
  | .error _ => []

/-- The concatenation Page.SearchKey ++ categorySection.SearchKey ++
functionSection.SearchKey for the first function Section of a returned
Index (`[]` when there is none or the run failed). -/
def firstFuncPathConcat (r : Except IndexError Index) : List String :=
  match r with
  | .error _ => []
  | .ok idx =>
    match idx.Libraries with
    | [] => []
    | lib :: _ =>
      match lib.Pages with
      | [] => []
      | page :: _ =>
        match page.Sections with
        | [] => []
        | s :: _ =>
          match s.Children with
          | [] => []
          | c :: _ => page.SearchKey ++ s.SearchKey ++ c.SearchKey

/-- The sibling list below the first Section of the first Page of a
returned Index (`[]` when absent or the run failed). -/
def firstChildren (r : Except IndexError Index) : List Section :=
  match r with
  | .error _ => []
  | .ok idx =>
    match idx.Libraries with
    | [] => []
    | lib :: _ =>
      match lib.Pages with
      | [] => []
      | page :: _ =>
        match page.Sections with
        | [] => []
        | s :: _ => s.Children

/-! ## Concrete directories used by witnesses and counterexamples -/

/-- A readable file with the given path, byte length and function matches
and no module docstring. -/
def plainFile (p : String) (n : Nat) (fs : List PyFunc) : FileEntry :=
  FileEntry.mk p (FileContent.ok n (PyModule.mk none fs))

/-- A function match with only name and parameter captures. -/
def plainFunc (n p : String) : PyFunc := PyFunc.mk n p none none

/-- The identity map range order. -/
def rangeId : RangeOrder := fun l => l

/-- The reversed map range order (equally legitimate for a Go map). -/
def rangeRev : RangeOrder := fun l => l.reverse

/-- One module `m` with one public function `run`. -/
def dirOneFunc : DirFS :=
  DirFS.mk [plainFile "m.py" 9 [plainFunc "run" "()"]] none

/-- Two modules `a` and `b`. -/
def dirTwoMods : DirFS :=
  DirFS.mk [plainFile "a.py" 1 [], plainFile "b.py" 2 []] none

/-- One module whose file defines `f` twice (legal Python: the second
definition rebinds the name). -/
def dirDupFunc : DirFS :=
  DirFS.mk [plainFile "m.py" 5 [plainFunc "f" "()", plainFunc "f" "(x)"]] none

/-- One module with one private and one dunder function. -/
def dirVisibility : DirFS :=
  DirFS.mk [plainFile "v.py" 3 [plainFunc "_hidden" "()", plainFunc "__init__" "(self)"]] none

/-- One parseable module, used to exercise cancellation. -/
def dirSecret : DirFS :=
  DirFS.mk [plainFile "secret.py" 1 []] none

/-- A mixed directory: one plain module, one test fixture, one
non-Python file, one nested `.py3` module. -/
def dirMixed : DirFS :=
  DirFS.mk
    [plainFile "pkg.py" 10 [plainFunc "run" "()"],
     plainFile "test_x.py" 5 [],
     plainFile "README.md" 100 [],
     plainFile "sub/util.py3" 7 [plainFunc "go" "()"]] none

/-- A directory whose only Python file is a test fixture. -/
def dirOnlyTests : DirFS :=
  DirFS.mk [plainFile "tests/a.py" 4 []] none

/-! ## Supporting lemmas -/

theorem funcSection_ID (m : String) (f : PyFunc) : (funcSection m f).ID = f.name := rfl

theorem funcSection_SearchKey (m : String) (f : PyFunc) :
    (funcSection m f).SearchKey = [m, ".", f.name] := rfl

theorem funcSection_Category (m : String) (f : PyFunc) :
    (funcSection m f).Category = false := rfl

theorem funcSection_Children (m : String) (f : PyFunc) :
    (funcSection m f).Children = [] := rfl

theorem pageFor_SearchKey (fbm : String → List Section) (m : String) (info : ModuleInfo) :
    (pageFor fbm m info).SearchKey = [m] := rfl

theorem pageFor_Sections (fbm : String → List Section) (m : String) (info : ModuleInfo) :
    (pageFor fbm m info).Sections = [categorySection (fbm m)] := rfl

theorem categorySection_fields (ch : List Section) :
    (categorySection ch).ID = "func" ∧ (categorySection ch).Label = "Functions"
      ∧ (categorySection ch).SearchKey = [] ∧ (categorySection ch).Category = true
      ∧ (categorySection ch).Children = ch :=
  ⟨rfl, rfl, rfl, rfl, rfl⟩

/-- A successful, non-cancelled iteration computes `stepSt`. -/
theorem processFile_ok (ctx : Ctx) (st : LoopState) (f : FileEntry)
    (hr : f.readableB = true) (hk : ctxCancelled ctx st.parseIdx = false) :
    processFile ctx st f = .ok (stepSt st f) := by
  cases hc : f.content with
  | readError m =>
    unfold FileEntry.readableB at hr
    rw [hc] at hr
    cases hr
  | ok size parsed =>
    by_cases ht : isTestPath f.path
    · simp [processFile, stepSt, ht]
    · simp [processFile, stepSt, ht, hc, hk]

/-- A run over readable sources with a never-cancelled context computes
the pure fold. -/
theorem runFiles_happy (l : List FileEntry) (st : LoopState)
    (hr : ∀ f ∈ l, f.readableB = true) :
    runFiles none st l = .ok (foldSt st l) := by
  induction l generalizing st with
  | nil => rfl
  | cons f rest ih =>
    rw [runFiles, processFile_ok none st f (hr f (by simp)) rfl]
    exact ih (stepSt st f) fun g hg => hr g (by simp [hg])

theorem mapStore_mem_keys (l : List (String × ModuleInfo)) (k : String) (v : ModuleInfo)
    (m : String) :
    m ∈ (mapStore l k v).map Prod.fst ↔ m = k ∨ m ∈ l.map Prod.fst := by
  induction l with
  | nil => simp [mapStore]
  | cons kv rest ih =>
    obtain ⟨k', v'⟩ := kv
    by_cases h : k' = k
    · subst h
      simp [mapStore]
    · simp [mapStore, h, ih]
      tauto

theorem foldSt_files (l : List FileEntry) (st : LoopState)
    (hr : ∀ f ∈ l, f.readableB = true) :
    (foldSt st l).files = st.files + (l.filter fun f => !isTestPath f.path).length := by
  induction l generalizing st with
  | nil => simp [foldSt]
  | cons f rest ih =>
    rw [foldSt, ih _ fun g hg => hr g (by simp [hg])]
    cases hc : f.content with
    | readError m =>
      exfalso
      have := hr f (by simp)
      simp [FileEntry.readableB, hc] at this
    | ok size parsed =>
      by_cases ht : isTestPath f.path
      · simp [stepSt, ht, List.filter_cons]
      · simp [stepSt, ht, hc, List.filter_cons]
        omega

theorem foldSt_bytes (l : List FileEntry) (st : LoopState)
    (hr : ∀ f ∈ l, f.readableB = true) :
    (foldSt st l).bytes
      = st.bytes + ((l.filter fun f => !isTestPath f.path).map FileEntry.byteLen).sum := by
  induction l generalizing st with
  | nil => simp [foldSt]
  | cons f rest ih =>
    rw [foldSt, ih _ fun g hg => hr g (by simp [hg])]
    cases hc : f.content with
    | readError m =>
      exfalso
      have := hr f (by simp)
      simp [FileEntry.readableB, hc] at this
    | ok size parsed =>
      by_cases ht : isTestPath f.path
      · simp [stepSt, ht, List.filter_cons]
      · simp [stepSt, ht, hc, List.filter_cons, FileEntry.byteLen]
        omega

theorem foldSt_fbm (l : List FileEntry) (st : LoopState) (m : String)
    (hr : ∀ f ∈ l, f.readableB = true) :
    (foldSt st l).functionsByMod m
      = st.functionsByMod m
        ++ ((l.filter fun f => !isTestPath f.path && decide (modNameFor f.path = m)).flatMap
            fun f => sectionsOfFile m f.pyMod.funcs) := by
  induction l generalizing st with
  | nil => simp [foldSt]
  | cons f rest ih =>
    rw [foldSt, ih _ fun g hg => hr g (by simp [hg])]
    cases hc : f.content with
    | readError me =>
      exfalso
      have := hr f (by simp)
      simp [FileEntry.readableB, hc] at this
    | ok size parsed =>
      by_cases ht : isTestPath f.path
      · simp [stepSt, ht, List.filter_cons]
      · by_cases hm : modNameFor f.path = m
        · subst hm
          simp [stepSt, ht, hc, List.filter_cons, FileEntry.pyMod, List.append_assoc]
        · simp [stepSt, ht, hc, List.filter_cons, hm, Ne.symm hm]

theorem foldSt_mods_mem (l : List FileEntry) (st : LoopState) (m : String)
    (hr : ∀ f ∈ l, f.readableB = true) :
    m ∈ (foldSt st l).mods.map Prod.fst
      ↔ m ∈ st.mods.map Prod.fst
        ∨ ∃ f ∈ l, (!isTestPath f.path) = true ∧ modNameFor f.path = m := by
  induction l generalizing st with
  | nil => simp [foldSt]
  | cons f rest ih =>
    rw [foldSt, ih _ fun g hg => hr g (by simp [hg])]
    cases hc : f.content with
    | readError me =>
      exfalso
      have := hr f (by simp)
      simp [FileEntry.readableB, hc] at this
    | ok size parsed =>
      by_cases ht : isTestPath f.path
      · simp [stepSt, ht]
      · have hstep : (stepSt st f).mods
            = mapStore st.mods (modNameFor f.path)
                (ModuleInfo.mk f.path (sanitizeDocs (joinCaptures parsed.docstring))) := by
          simp [stepSt, ht, hc]
        rw [hstep]
        constructor
        · rintro (h | h)
          · rcases (mapStore_mem_keys st.mods (modNameFor f.path) _ m).1 h with hm | hm
            · exact Or.inr ⟨f, by simp, by simp [ht], hm.symm⟩
            · exact Or.inl hm
          · obtain ⟨g, hg, hp⟩ := h
            exact Or.inr ⟨g, by simp [hg], hp⟩
        · rintro (h | h)
          · exact Or.inl ((mapStore_mem_keys st.mods (modNameFor f.path) _ m).2 (Or.inr h))
          · obtain ⟨g, hg, hgt, hgm⟩ := h
            rcases List.mem_cons.1 hg with rfl | hg2
            · exact Or.inl ((mapStore_mem_keys st.mods (modNameFor g.path) _ m).2 (Or.inl hgm.symm))
            · exact Or.inr ⟨g, hg2, hgt, hgm⟩

/-- With no walk error, readable sources and a never-cancelled context,
`IndexDir` succeeds and its output is determined by `finalState` and the
range order. -/
theorem indexDir_happy (σ : RangeOrder) (d : DirFS)
    (hw : d.walkError = none)
    (hr : ∀ f ∈ sourcesOf d, f.readableB = true) :
    IndexDir none σ d
      = .ok (Index.mk LatestVersion LanguagePython (finalState d).files (finalState d).bytes
          [Library.mk "TODO" "TODO" "TODO" "TODO" "TODO"
            ((σ (finalState d).mods).map fun kv =>
              pageFor (finalState d).functionsByMod kv.1 kv.2)]) := by
  unfold IndexDir
  rw [hw, runFiles_happy (sourcesOf d) (LoopState.mk 0 0 [] (fun _ => []) 0) hr]
  rfl

theorem finalState_files (d : DirFS)
    (hr : ∀ f ∈ sourcesOf d, f.readableB = true) :
    (finalState d).files = numParsedFiles d := by
  unfold finalState numParsedFiles indexedSources
  rw [foldSt_files (sourcesOf d) initState hr]
  simp [initState]

theorem finalState_bytes (d : DirFS)
    (hr : ∀ f ∈ sourcesOf d, f.readableB = true) :
    (finalState d).bytes = ((indexedSources d).map FileEntry.byteLen).sum := by
  unfold finalState indexedSources
  rw [foldSt_bytes (sourcesOf d) initState hr]
  simp [initState]

theorem finalState_fbm (d : DirFS) (m : String)
    (hr : ∀ f ∈ sourcesOf d, f.readableB = true) :
    (finalState d).functionsByMod m = moduleFuncSections d m := by
  unfold finalState moduleFuncSections indexedSources
  rw [foldSt_fbm (sourcesOf d) initState m hr]
  simp only [initState, List.filter_filter, List.nil_append]
  congr 1
  exact List.filter_congr fun a _ => Bool.and_comm _ _

theorem finalState_mods_mem (d : DirFS) (m : String)
    (hr : ∀ f ∈ sourcesOf d, f.readableB = true) :
    m ∈ (finalState d).mods.map Prod.fst
      ↔ ∃ f ∈ indexedSources d, modNameFor f.path = m := by
  unfold finalState indexedSources
  rw [foldSt_mods_mem (sourcesOf d) initState m hr]
  simp [initState, List.mem_filter]
  tauto

theorem mem_sectionsOfFile {m : String} {funcs : List PyFunc} {s : Section} :
    s ∈ sectionsOfFile m funcs
      ↔ ∃ f ∈ funcs, funcIsPrivate f.name = false ∧ s = funcSection m f := by
  unfold sectionsOfFile
  rw [List.mem_filterMap]
  constructor
  · rintro ⟨f, hf, hif⟩
    by_cases hp : funcIsPrivate f.name
    · simp [hp] at hif
    · rw [if_neg hp] at hif
      exact ⟨f, hf, by simpa using hp, (Option.some_inj.1 hif).symm⟩
  · rintro ⟨f, hf, hp, rfl⟩
    exact ⟨f, hf, by rw [if_neg (by simp [hp])]⟩

theorem sectionsOfFile_map_ID (m : String) (funcs : List PyFunc) :
    (sectionsOfFile m funcs).map Section.ID
      = ((funcs.filter fun fn => !funcIsPrivate fn.name).map PyFunc.name) := by
  induction funcs with
  | nil => rfl
  | cons f rest ih =>
    by_cases hp : funcIsPrivate f.name
    · simp only [sectionsOfFile, List.filterMap_cons, List.filter_cons, hp, if_pos,
        Bool.not_true, if_neg] at ih ⊢
      simpa using ih
    · simp only [sectionsOfFile, List.filterMap_cons, List.filter_cons] at ih ⊢
      rw [if_neg hp]
      simp only [hp, Bool.not_false, if_pos, List.map_cons, funcSection_ID]
      rw [ih]

theorem moduleFuncSections_map_ID (d : DirFS) (m : String) :
    (moduleFuncSections d m).map Section.ID = moduleFuncNames d m := by
  unfold moduleFuncSections moduleFuncNames
  rw [List.map_flatMap]
  congr 1
  funext f
  exact sectionsOfFile_map_ID m f.pyMod.funcs

/-- A `PathError`-derived message contains the offending path, whatever
wrapping text precedes it. -/
theorem pathErr_message_contains (e : PathErr) (w : String) :
    stringsContains (w ++ e.message) e.path = true := by
  apply decide_eq_true
  exact ⟨w.data ++ e.op.data ++ " ".data, ": ".data ++ e.msg.data,
    by simp [PathErr.message, String.data_append]⟩

/-- A successful run implies that every non-skipped source was readable
and that no performed parse call observed a cancelled context. -/
theorem runFiles_ok_inv (ctx : Ctx) :
    ∀ (l : List FileEntry) (st st' : LoopState),
      runFiles ctx st l = .ok st' →
      (∀ f ∈ l, (!isTestPath f.path) = true → f.readableB = true)
        ∧ (∀ j, st.parseIdx ≤ j →
            j < st.parseIdx + (l.filter fun f => !isTestPath f.path).length →
            ctxCancelled ctx j = false) := by
  intro l
  induction l with
  | nil =>
    intro st st' _
    refine ⟨by simp, ?_⟩
    intro j h1 h2
    simp at h2
    omega
  | cons f rest ih =>
    intro st st' h
    rw [runFiles] at h
    by_cases ht : isTestPath f.path
    · have hpf : processFile ctx st f = .ok st := by simp [processFile, ht]
      rw [hpf] at h
      obtain ⟨h1, h2⟩ := ih st st' h
      refine ⟨?_, ?_⟩
      · intro g hg hgt
        rcases List.mem_cons.1 hg with rfl | hg2
        · simp [ht] at hgt
        · exact h1 g hg2 hgt
      · intro j hj1 hj2
        refine h2 j hj1 ?_
        simpa [List.filter_cons, ht] using hj2
    · cases hc : f.content with
      | readError os =>
        have hpf : processFile ctx st f
            = .error (.readFile (PathErr.mk "open" f.path os).message) := by
          simp [processFile, ht, hc]
        rw [hpf] at h
        cases h
      | ok size parsed =>
        by_cases hck : ctxCancelled ctx st.parseIdx
        · have hpf : processFile ctx st f = .error (.parseCtx "context canceled") := by
            simp [processFile, ht, hc, hck]
          rw [hpf] at h
          cases h
        · have hrd : f.readableB = true := by simp [FileEntry.readableB, hc]
          have hpf := processFile_ok ctx st f hrd (by simpa using hck)
          rw [hpf] at h
          have hpi : (stepSt st f).parseIdx = st.parseIdx + 1 := by
            simp [stepSt, ht, hc]
          obtain ⟨h1, h2⟩ := ih (stepSt st f) st' h
          rw [hpi] at h2
          refine ⟨?_, ?_⟩
          · intro g hg hgt
            rcases List.mem_cons.1 hg with rfl | hg2
            · exact hrd
            · exact h1 g hg2 hgt
          · intro j hj1 hj2
            simp only [List.filter_cons, ht] at hj2
            by_cases hje : j = st.parseIdx
            · subst hje
              simpa using hck
            · refine h2 j (by omega) ?_
              simp only [Bool.not_false, if_pos] at hj2
              simp only [List.length_cons] at hj2
              omega

/-- A `ReadFile` failure always originates from one of the walked files,
wrapping the `*fs.PathError` built from that file's path. -/
theorem runFiles_error_readFile (ctx : Ctx) :
    ∀ (l : List FileEntry) (st : LoopState) (m : String),
      runFiles ctx st l = .error (.readFile m) →
      ∃ f ∈ l, ∃ os, m = (PathErr.mk "open" f.path os).message := by
  intro l
  induction l with
  | nil => intro st m h; cases h
  | cons f rest ih =>
    intro st m h
    rw [runFiles] at h
    by_cases ht : isTestPath f.path
    · have hpf : processFile ctx st f = .ok st := by simp [processFile, ht]
      rw [hpf] at h
      obtain ⟨g, hg, os, hos⟩ := ih st m h
      exact ⟨g, List.mem_cons_of_mem f hg, os, hos⟩
    · cases hc : f.content with
      | readError os =>
        have hpf : processFile ctx st f
            = .error (.readFile (PathErr.mk "open" f.path os).message) := by
          simp [processFile, ht, hc]
        rw [hpf] at h
        cases h
        exact ⟨f, List.mem_cons_self f rest, os, rfl⟩
      | ok size parsed =>
        by_cases hck : ctxCancelled ctx st.parseIdx
        · have hpf : processFile ctx st f = .error (.parseCtx "context canceled") := by
            simp [processFile, ht, hc, hck]
          rw [hpf] at h
          cases h
        · have hrd : f.readableB = true := by simp [FileEntry.readableB, hc]
          rw [processFile_ok ctx st f hrd (by simpa using hck)] at h
          obtain ⟨g, hg, os, hos⟩ := ih (stepSt st f) m h
          exact ⟨g, List.mem_cons_of_mem f hg, os, hos⟩

/-- With readable files, a context cancelled before the last parse call
makes the run fail with the cancellation error. -/
theorem runFiles_cancelled (k : Nat) :
    ∀ (l : List FileEntry) (st : LoopState),
      (∀ f ∈ l, f.readableB = true) →
      0 < (l.filter fun f => !isTestPath f.path).length →
      k < st.parseIdx + (l.filter fun f => !isTestPath f.path).length →
      runFiles (some k) st l = .error (.parseCtx "context canceled") := by
  intro l
  induction l with
  | nil =>
    intro st _ h0 _
    simp at h0
  | cons f rest ih =>
    intro st hr h0 hk
    by_cases ht : isTestPath f.path
    · have hpf : processFile (some k) st f = .ok st := by simp [processFile, ht]
      rw [runFiles, hpf]
      refine ih st (fun g hg => hr g (List.mem_cons_of_mem f hg)) ?_ ?_
      · simpa [List.filter_cons, ht] using h0
      · simpa [List.filter_cons, ht] using hk
    · cases hc : f.content with
      | readError os =>
        exfalso
        have := hr f (List.mem_cons_self f rest)
        simp [FileEntry.readableB, hc] at this
      | ok size parsed =>
        by_cases hck : k ≤ st.parseIdx
        · have hpf : processFile (some k) st f = .error (.parseCtx "context canceled") := by
            simp [processFile, ht, hc, ctxCancelled, hck]
          rw [runFiles, hpf]
        · have hrd : f.readableB = true := by simp [FileEntry.readableB, hc]
          have hck2 : ctxCancelled (some k) st.parseIdx = false := by
            simp [ctxCancelled]
            omega
          rw [runFiles, processFile_ok (some k) st f hrd hck2]
          have hpi : (stepSt st f).parseIdx = st.parseIdx + 1 := by
            simp [stepSt, ht, hc]
          simp only [List.filter_cons, ht, Bool.not_false, if_pos, List.length_cons] at hk
          refine ih (stepSt st f) (fun g hg => hr g (List.mem_cons_of_mem f hg)) ?_ ?_
          · by_contra h0r
            omega
          · rw [hpi]
            omega

/-- A run in which every source hits the test-fixture skip leaves the
loop state untouched. -/
theorem runFiles_all_skipped (ctx : Ctx) :
    ∀ (l : List FileEntry) (st : LoopState),
      (∀ f ∈ l, isTestPath f.path = true) → runFiles ctx st l = .ok st := by
  intro l
  induction l with
  | nil => intro st _; rfl
  | cons f rest ih =>
    intro st hs
    have hpf : processFile ctx st f = .ok st := by
      simp [processFile, hs f (List.mem_cons_self f rest)]
    rw [runFiles, hpf]
    exact ih st fun g hg => hs g (List.mem_cons_of_mem f hg)

/-! ## The claims -/

/-- C1: in every Index produced by a successful run, no Section carries a
name that starts with an underscore without also ending with one (such
function definitions are excluded), while every module-level function
definition whose name both starts and ends with an underscore yields a
Section. -/
theorem c1_visibility_filter (σ : RangeOrder) (d : DirFS)
    (hσ : RangeOrder.Valid σ) (hw : d.walkError = none)
    (hr : ∀ f ∈ sourcesOf d, f.readableB = true) :
    ∃ idx, IndexDir none σ d = .ok idx
      ∧ (∀ lib ∈ idx.Libraries, ∀ page ∈ lib.Pages, ∀ s ∈ page.Sections,
          ∀ c ∈ s.Children, funcIsPrivate c.ID = false)
      ∧ (∀ f ∈ indexedSources d, ∀ fn ∈ f.pyMod.funcs,
          headIsUnderscore fn.name = true → lastIsUnderscore fn.name = true →
          ∃ lib ∈ idx.Libraries, ∃ page ∈ lib.Pages, ∃ s ∈ page.Sections,
            ∃ c ∈ s.Children, c.ID = fn.name) := by
  refine ⟨_, indexDir_happy σ d hw hr, ?_, ?_⟩
  · intro lib hlib page hpage s hs c hc
    simp only [List.mem_singleton] at hlib
    subst hlib
    obtain ⟨kv, hkv, rfl⟩ := List.mem_map.1 hpage
    rw [pageFor_Sections] at hs
    simp only [List.mem_singleton] at hs
    subst hs
    rw [show (categorySection ((finalState d).functionsByMod kv.1)).Children
        = (finalState d).functionsByMod kv.1 from rfl] at hc
    rw [finalState_fbm d kv.1 hr] at hc
    obtain ⟨g, hg, hcg⟩ := List.mem_flatMap.1 hc
    obtain ⟨fn, hfn, hp, rfl⟩ := mem_sectionsOfFile.1 hcg
    rw [funcSection_ID]
    exact hp
  · intro f hf fn hfn hhead hlast
    refine ⟨_, List.mem_singleton_self _, ?_⟩
    have hm : modNameFor f.path ∈ (finalState d).mods.map Prod.fst :=
      (finalState_mods_mem d _ hr).2 ⟨f, hf, rfl⟩
    obtain ⟨kv, hkv, hfst⟩ := List.mem_map.1 hm
    have hkσ : kv ∈ σ (finalState d).mods := ((hσ _).mem_iff).2 hkv
    refine ⟨pageFor (finalState d).functionsByMod kv.1 kv.2,
      List.mem_map_of_mem _ hkσ,
      categorySection ((finalState d).functionsByMod kv.1),
      by rw [pageFor_Sections]; exact List.mem_singleton_self _, funcSection kv.1 fn, ?_, ?_⟩
    · rw [show (categorySection ((finalState d).functionsByMod kv.1)).Children
          = (finalState d).functionsByMod kv.1 from rfl]
      rw [finalState_fbm d kv.1 hr]
      refine List.mem_flatMap.2 ⟨f, ?_, ?_⟩
      · rw [List.mem_filter]
        exact ⟨hf, by rw [hfst]; simp⟩
      · refine mem_sectionsOfFile.2 ⟨fn, hfn, ?_, rfl⟩
        simp [funcIsPrivate, hlast]
    · rw [funcSection_ID]

/-- C1 witness: a module defining `_hidden` and `__init__` retains the
dunder and drops the private name. -/
theorem c1_visibility_filter_witness :
    ∃ idx, IndexDir none rangeId dirVisibility = .ok idx
      ∧ (∀ lib ∈ idx.Libraries, ∀ page ∈ lib.Pages, ∀ s ∈ page.Sections,
          ∀ c ∈ s.Children, funcIsPrivate c.ID = false)
      ∧ (∀ f ∈ indexedSources dirVisibility, ∀ fn ∈ f.pyMod.funcs,
          headIsUnderscore fn.name = true → lastIsUnderscore fn.name = true →
          ∃ lib ∈ idx.Libraries, ∃ page ∈ lib.Pages, ∃ s ∈ page.Sections,
            ∃ c ∈ s.Children, c.ID = fn.name) :=
  c1_visibility_filter rangeId dirVisibility (fun l => List.Perm.refl l) rfl (by decide)

/-- C2 counterexample: for module `m` with function `run`, the
concatenation Page.SearchKey ++ categorySection.SearchKey ++
functionSection.SearchKey is `["m", "m", ".", "run"]`, which is not the
canonical path `["m", ".", "run"]` and duplicates the module token. -/
theorem c2_counterexample :
    firstFuncPathConcat (IndexDir none rangeId dirOneFunc) = ["m", "m", ".", "run"]
      ∧ specCanonicalPath "m" "run" = ["m", ".", "run"]
      ∧ firstFuncPathConcat (IndexDir none rangeId dirOneFunc) ≠ specCanonicalPath "m" "run"
      ∧ ¬ (firstFuncPathConcat (IndexDir none rangeId dirOneFunc)).Nodup :=
  ⟨by decide, rfl, by decide, by decide⟩

/-- C2 amended: the function Section's own SearchKey already equals the
canonical fully-qualified path `[module, ".", name]`; the category
Section contributes `[]` and the Page contributes `[module]`, so the
root-to-node concatenation is the canonical path with one extra leading
copy of the module token, not the canonical path itself. -/
theorem c2_searchkey_concatenation_amended (σ : RangeOrder) (d : DirFS)
    (hw : d.walkError = none)
    (hr : ∀ f ∈ sourcesOf d, f.readableB = true) :
    ∃ idx, IndexDir none σ d = .ok idx
      ∧ ∀ lib ∈ idx.Libraries, ∀ page ∈ lib.Pages, ∀ s ∈ page.Sections,
          ∀ c ∈ s.Children,
          ∃ m, page.SearchKey = [m] ∧ s.SearchKey = []
            ∧ c.SearchKey = specCanonicalPath m c.ID
            ∧ page.SearchKey ++ s.SearchKey ++ c.SearchKey
                = m :: specCanonicalPath m c.ID := by
  refine ⟨_, indexDir_happy σ d hw hr, ?_⟩
  intro lib hlib page hpage s hs c hc
  simp only [List.mem_singleton] at hlib
  subst hlib
  obtain ⟨kv, hkv, rfl⟩ := List.mem_map.1 hpage
  rw [pageFor_Sections] at hs
  simp only [List.mem_singleton] at hs
  subst hs
  rw [show (categorySection ((finalState d).functionsByMod kv.1)).Children
      = (finalState d).functionsByMod kv.1 from rfl] at hc
  rw [finalState_fbm d kv.1 hr] at hc
  obtain ⟨g, hg, hcg⟩ := List.mem_flatMap.1 hc
  obtain ⟨fn, hfn, hp, rfl⟩ := mem_sectionsOfFile.1 hcg
  exact ⟨kv.1, rfl, rfl, rfl, rfl⟩

/-- C2 amended witness, at module `m` with function `run`. -/
theorem c2_searchkey_concatenation_amended_witness :
    ∃ idx, IndexDir none rangeId dirOneFunc = .ok idx
      ∧ ∀ lib ∈ idx.Libraries, ∀ page ∈ lib.Pages, ∀ s ∈ page.Sections,
          ∀ c ∈ s.Children,
          ∃ m, page.SearchKey = [m] ∧ s.SearchKey = []
            ∧ c.SearchKey = specCanonicalPath m c.ID
            ∧ page.SearchKey ++ s.SearchKey ++ c.SearchKey
                = m :: specCanonicalPath m c.ID :=
  c2_searchkey_concatenation_amended rangeId dirOneFunc rfl (by decide)

/-- C3 counterexample: over a directory with modules `a` and `b`, two
runs whose map range orders differ (both legitimate) return Indexes that
are not deep-equal: their Pages appear in different orders. -/
theorem c3_counterexample :
    IndexDir none rangeRev dirTwoMods ≠ IndexDir none rangeId dirTwoMods := fun h =>
  absurd (congrArg resultPagePaths h) (by decide)

/-- C3 amended: two runs over the same directory agree on the schema
version, language, file and byte counts and the Library identity, and
their Pages coincide up to a permutation; the order of Pages depends on
the map range order, so deep equality is not guaranteed. -/
theorem c3_determinism_up_to_page_order (σ1 σ2 : RangeOrder) (d : DirFS)
    (h1 : RangeOrder.Valid σ1) (h2 : RangeOrder.Valid σ2)
    (hw : d.walkError = none)
    (hr : ∀ f ∈ sourcesOf d, f.readableB = true) :
    ∃ i1 i2, IndexDir none σ1 d = .ok i1 ∧ IndexDir none σ2 d = .ok i2
      ∧ i1.SchemaVersion = i2.SchemaVersion ∧ i1.Language = i2.Language
      ∧ i1.NumFiles = i2.NumFiles ∧ i1.NumBytes = i2.NumBytes
      ∧ i1.Libraries.length = 1 ∧ i2.Libraries.length = 1
      ∧ ∀ l1 ∈ i1.Libraries, ∀ l2 ∈ i2.Libraries,
          l1.Name = l2.Name ∧ l1.Repository = l2.Repository ∧ l1.ID = l2.ID
            ∧ l1.Version = l2.Version ∧ l1.VersionType = l2.VersionType
            ∧ l1.Pages.Perm l2.Pages := by
  refine ⟨_, _, indexDir_happy σ1 d hw hr, indexDir_happy σ2 d hw hr,
    rfl, rfl, rfl, rfl, rfl, rfl, ?_⟩
  intro l1 hl1 l2 hl2
  simp only [List.mem_singleton] at hl1 hl2
  subst hl1
  subst hl2
  exact ⟨rfl, rfl, rfl, rfl, rfl, ((h1 _).map _).trans (((h2 _).map _).symm)⟩

/-- C3 amended witness, with the identity and reversal range orders over
the two-module directory. -/
theorem c3_determinism_up_to_page_order_witness :
    ∃ i1 i2, IndexDir none rangeId dirTwoMods = .ok i1
      ∧ IndexDir none rangeRev dirTwoMods = .ok i2
      ∧ i1.SchemaVersion = i2.SchemaVersion ∧ i1.Language = i2.Language
      ∧ i1.NumFiles = i2.NumFiles ∧ i1.NumBytes = i2.NumBytes
      ∧ i1.Libraries.length = 1 ∧ i2.Libraries.length = 1
      ∧ ∀ l1 ∈ i1.Libraries, ∀ l2 ∈ i2.Libraries,
          l1.Name = l2.Name ∧ l1.Repository = l2.Repository ∧ l1.ID = l2.ID
            ∧ l1.Version = l2.Version ∧ l1.VersionType = l2.VersionType
            ∧ l1.Pages.Perm l2.Pages :=
  c3_determinism_up_to_page_order rangeId rangeRev dirTwoMods
    (fun l => List.Perm.refl l) (fun l => List.reverse_perm l) rfl (by decide)

/-- C4 counterexample: a file defining `f` twice yields two sibling
function Sections that share the identifier `f`. -/
theorem c4_counterexample :
    (firstChildren (IndexDir none rangeId dirDupFunc)).map Section.ID = ["f", "f"]
      ∧ ¬ ((firstChildren (IndexDir none rangeId dirDupFunc)).map Section.ID).Nodup :=
  ⟨by decide, by decide⟩

/-- C4 amended: sibling identifiers are unique provided that, for every
module key, the retained module-level function names accumulated for it
are pairwise distinct (the indexer copies function names into Section
IDs without deduplication, so duplicate definitions yield duplicate
sibling IDs). -/
theorem c4_sibling_ids_unique_amended (σ : RangeOrder) (d : DirFS)
    (hσ : RangeOrder.Valid σ) (hw : d.walkError = none)
    (hr : ∀ f ∈ sourcesOf d, f.readableB = true)
    (hnames : ∀ f ∈ indexedSources d, (moduleFuncNames d (modNameFor f.path)).Nodup) :
    ∃ idx, IndexDir none σ d = .ok idx
      ∧ ∀ lib ∈ idx.Libraries, ∀ page ∈ lib.Pages,
          (page.Sections.map Section.ID).Nodup
            ∧ ∀ s ∈ page.Sections, (s.Children.map Section.ID).Nodup
                ∧ ∀ c ∈ s.Children, (c.Children.map Section.ID).Nodup := by
  refine ⟨_, indexDir_happy σ d hw hr, ?_⟩
  intro lib hlib page hpage
  simp only [List.mem_singleton] at hlib
  subst hlib
  obtain ⟨kv, hkv, rfl⟩ := List.mem_map.1 hpage
  refine ⟨by rw [pageFor_Sections]; simp, ?_⟩
  intro s hs
  rw [pageFor_Sections] at hs
  simp only [List.mem_singleton] at hs
  subst hs
  constructor
  · rw [show (categorySection ((finalState d).functionsByMod kv.1)).Children
        = (finalState d).functionsByMod kv.1 from rfl]
    rw [finalState_fbm d kv.1 hr, moduleFuncSections_map_ID]
    have hkey : kv.1 ∈ (finalState d).mods.map Prod.fst :=
      List.mem_map_of_mem _ (((hσ _).mem_iff).1 hkv)
    obtain ⟨f, hf, hfm⟩ := (finalState_mods_mem d kv.1 hr).1 hkey
    rw [← hfm]
    exact hnames f hf
  · intro c hc
    rw [show (categorySection ((finalState d).functionsByMod kv.1)).Children
        = (finalState d).functionsByMod kv.1 from rfl] at hc
    rw [finalState_fbm d kv.1 hr] at hc
    obtain ⟨g, hg, hcg⟩ := List.mem_flatMap.1 hc
    obtain ⟨fn, hfn, hp, rfl⟩ := mem_sectionsOfFile.1 hcg
    rw [funcSection_Children]
    simp

/-- C4 amended witness: distinct function names give unique sibling IDs. -/
theorem c4_sibling_ids_unique_amended_witness :
    ∃ idx, IndexDir none rangeId dirVisibility = .ok idx
      ∧ ∀ lib ∈ idx.Libraries, ∀ page ∈ lib.Pages,
          (page.Sections.map Section.ID).Nodup
            ∧ ∀ s ∈ page.Sections, (s.Children.map Section.ID).Nodup
                ∧ ∀ c ∈ s.Children, (c.Children.map Section.ID).Nodup :=
  c4_sibling_ids_unique_amended rangeId dirVisibility (fun l => List.Perm.refl l) rfl
    (by decide) (by decide)

/-- C5: a successful run discovers exactly the walked files with
extension `.py` or `.py3`, skips exactly those whose path contains
`test_`, `_test` or `tests`, and reports as file count the number of
non-skipped discovered files and as byte count the sum of their byte
lengths. -/
theorem c5_discovery_and_counts (σ : RangeOrder) (d : DirFS)
    (hw : d.walkError = none)
    (hr : ∀ f ∈ sourcesOf d, f.readableB = true) :
    ∃ idx, IndexDir none σ d = .ok idx
      ∧ idx.NumFiles
          = (((d.files.filter fun f => extMatches f.path).filter
              fun f => !isTestPath f.path).length)
      ∧ idx.NumBytes
          = ((((d.files.filter fun f => extMatches f.path).filter
              fun f => !isTestPath f.path)).map FileEntry.byteLen).sum :=
  ⟨_, indexDir_happy σ d hw hr, finalState_files d hr, finalState_bytes d hr⟩

/-- C5 witness over the mixed directory: two indexed files (10 + 7 bytes),
one test fixture and one non-Python file. -/
theorem c5_discovery_and_counts_witness :
    ∃ idx, IndexDir none rangeId dirMixed = .ok idx
      ∧ idx.NumFiles
          = (((dirMixed.files.filter fun f => extMatches f.path).filter
              fun f => !isTestPath f.path).length)
      ∧ idx.NumBytes
          = ((((dirMixed.files.filter fun f => extMatches f.path).filter
              fun f => !isTestPath f.path)).map FileEntry.byteLen).sum :=
  c5_discovery_and_counts rangeId dirMixed rfl (by decide)

/-- C6 counterexample: when the context is cancelled, the per-file parse
fails and `IndexDir` propagates `ParseCtx: context canceled` — an error
that does not identify the offending file path. -/
theorem c6_counterexample :
    IndexDir (some 0) rangeId dirSecret = .error (.parseCtx "context canceled")
      ∧ stringsContains (IndexError.parseCtx "context canceled").message "secret.py"
          = false := by
  constructor
  · rfl
  · decide

/-- C6 amended: `IndexDir` returns exactly one Index or one error and
never swallows a failure: success implies there was no walk error, every
indexed file was readable and no performed parse observed cancellation;
a walk failure is propagated as a `WalkDir` error whose message contains
the offending path; a read failure is propagated as a `ReadFile` error
whose message contains the path of one of the walked files.  (Parse
errors carry the operation name but no path — see the counterexample.) -/
theorem c6_error_propagation_amended (ctx : Ctx) (σ : RangeOrder) (d : DirFS) :
    (∀ idx, IndexDir ctx σ d = .ok idx →
        d.walkError = none
          ∧ (∀ f ∈ indexedSources d, f.readableB = true)
          ∧ ∀ j < numParsedFiles d, ctxCancelled ctx j = false)
      ∧ (∀ pe, d.walkError = some pe →
          IndexDir ctx σ d = .error (.walkDir pe.message)
            ∧ stringsContains (IndexError.walkDir pe.message).message pe.path = true)
      ∧ (∀ m, IndexDir ctx σ d = .error (.readFile m) →
          ∃ f ∈ sourcesOf d,
            stringsContains (IndexError.readFile m).message f.path = true) := by
  refine ⟨?_, ?_, ?_⟩
  · intro idx hidx
    unfold IndexDir at hidx
    cases hwe : d.walkError with
    | some pe => rw [hwe] at hidx; cases hidx
    | none =>
      rw [hwe] at hidx
      cases hrun : runFiles ctx (LoopState.mk 0 0 [] (fun _ => []) 0) (sourcesOf d) with
      | error e => rw [hrun] at hidx; cases hidx
      | ok st =>
        obtain ⟨h1, h2⟩ := runFiles_ok_inv ctx (sourcesOf d) _ st hrun
        refine ⟨rfl, ?_, ?_⟩
        · intro f hf
          rw [indexedSources, List.mem_filter] at hf
          exact h1 f hf.1 hf.2
        · intro j hj
          exact h2 j (Nat.zero_le j) (by simpa using hj)
  · intro pe hpe
    refine ⟨by unfold IndexDir; rw [hpe], ?_⟩
    exact pathErr_message_contains pe "WalkDir: "
  · intro m hm
    unfold IndexDir at hm
    cases hwe : d.walkError with
    | some pe => rw [hwe] at hm; cases hm
    | none =>
      rw [hwe] at hm
      cases hrun : runFiles ctx (LoopState.mk 0 0 [] (fun _ => []) 0) (sourcesOf d) with
      | ok st => rw [hrun] at hm; cases hm
      | error e =>
        rw [hrun] at hm
        cases hm
        obtain ⟨f, hf, os, rfl⟩ := runFiles_error_readFile ctx (sourcesOf d) _ m hrun
        exact ⟨f, hf, pathErr_message_contains (PathErr.mk "open" f.path os) "ReadFile: "⟩

/-- C6 amended witness: a walk failure is propagated with its path. -/
theorem c6_error_propagation_amended_witness :
    IndexDir none rangeId (DirFS.mk [] (some (PathErr.mk "open" "broken" "denied")))
        = .error (.walkDir (PathErr.mk "open" "broken" "denied").message)
      ∧ stringsContains
          (IndexError.walkDir (PathErr.mk "open" "broken" "denied").message).message
          (PathErr.mk "open" "broken" "denied").path = true :=
  (c6_error_propagation_amended none rangeId
    (DirFS.mk [] (some (PathErr.mk "open" "broken" "denied")))).2.1
    (PathErr.mk "open" "broken" "denied") rfl

/-- C7: if the context's cancellation is observed before the last
per-file parse call of a run over readable sources, `IndexDir` returns
the cancellation error rather than a successful Index. -/
theorem c7_cancellation (k : Nat) (σ : RangeOrder) (d : DirFS)
    (hw : d.walkError = none)
    (hr : ∀ f ∈ sourcesOf d, f.readableB = true)
    (h0 : 0 < numParsedFiles d) (hk : k < numParsedFiles d) :
    IndexDir (some k) σ d = .error (.parseCtx "context canceled") := by
  unfold IndexDir
  rw [hw, runFiles_cancelled k (sourcesOf d) _ hr
    (by simpa [numParsedFiles, indexedSources] using h0)
    (by simpa [numParsedFiles, indexedSources] using hk)]

/-- C7 witness: cancelling before the only parse makes the run fail. -/
theorem c7_cancellation_witness :
    IndexDir (some 0) rangeRev dirSecret = .error (.parseCtx "context canceled") :=
  c7_cancellation 0 rangeRev dirSecret rfl (by decide) (by decide) (by decide)

/-- C8: for every non-skipped source file, the run emits a Page for its
module whose SearchKey is the single token `modNameFor path` (the path
with a trailing `.py` removed and `/` replaced by `.`), and every
function Section of that Page has SearchKey
`[modName, ".", functionName]`. -/
theorem c8_searchkeys (σ : RangeOrder) (d : DirFS)
    (hσ : RangeOrder.Valid σ) (hw : d.walkError = none)
    (hr : ∀ f ∈ sourcesOf d, f.readableB = true) :
    ∃ idx, IndexDir none σ d = .ok idx
      ∧ ∀ f ∈ indexedSources d,
          ∃ lib ∈ idx.Libraries, ∃ page ∈ lib.Pages,
            page.SearchKey = [modNameFor f.path]
              ∧ ∀ s ∈ page.Sections, ∀ c ∈ s.Children,
                  c.SearchKey = [modNameFor f.path, ".", c.ID] := by
  refine ⟨_, indexDir_happy σ d hw hr, ?_⟩
  intro f hf
  refine ⟨_, List.mem_singleton_self _, ?_⟩
  have hm : modNameFor f.path ∈ (finalState d).mods.map Prod.fst :=
    (finalState_mods_mem d _ hr).2 ⟨f, hf, rfl⟩
  obtain ⟨kv, hkv, hfst⟩ := List.mem_map.1 hm
  have hkσ : kv ∈ σ (finalState d).mods := ((hσ _).mem_iff).2 hkv
  refine ⟨pageFor (finalState d).functionsByMod kv.1 kv.2,
    List.mem_map_of_mem _ hkσ, by rw [pageFor_SearchKey, hfst], ?_⟩
  intro s hs c hc
  rw [pageFor_Sections] at hs
  simp only [List.mem_singleton] at hs
  subst hs
  rw [show (categorySection ((finalState d).functionsByMod kv.1)).Children
      = (finalState d).functionsByMod kv.1 from rfl] at hc
  rw [finalState_fbm d kv.1 hr] at hc
  obtain ⟨g, hg, hcg⟩ := List.mem_flatMap.1 hc
  obtain ⟨fn, hfn, hp, rfl⟩ := mem_sectionsOfFile.1 hcg
  rw [funcSection_SearchKey, funcSection_ID, hfst]

/-- C8 witness at module `m` with function `run`. -/
theorem c8_searchkeys_witness :
    ∃ idx, IndexDir none rangeId dirOneFunc = .ok idx
      ∧ ∀ f ∈ indexedSources dirOneFunc,
          ∃ lib ∈ idx.Libraries, ∃ page ∈ lib.Pages,
            page.SearchKey = [modNameFor f.path]
              ∧ ∀ s ∈ page.Sections, ∀ c ∈ s.Children,
                  c.SearchKey = [modNameFor f.path, ".", c.ID] :=
  c8_searchkeys rangeId dirOneFunc (fun l => List.Perm.refl l) rfl (by decide)

/-- C9: every Page of a successful run carries exactly one top-level
Section — the category node with ID `func`, label `Functions` and
`Category = true` — and each of its children (the function Sections) is
a non-category leaf, so every root-to-leaf path has length at most two. -/
theorem c9_tree_shape (σ : RangeOrder) (d : DirFS)
    (hw : d.walkError = none)
    (hr : ∀ f ∈ sourcesOf d, f.readableB = true) :
    ∃ idx, IndexDir none σ d = .ok idx
      ∧ ∀ lib ∈ idx.Libraries, ∀ page ∈ lib.Pages,
          page.Sections.length = 1
            ∧ ∀ s ∈ page.Sections,
                s.ID = "func" ∧ s.Label = "Functions" ∧ s.Category = true
                  ∧ ∀ c ∈ s.Children, c.Category = false ∧ c.Children = [] := by
  refine ⟨_, indexDir_happy σ d hw hr, ?_⟩
  intro lib hlib page hpage
  simp only [List.mem_singleton] at hlib
  subst hlib
  obtain ⟨kv, hkv, rfl⟩ := List.mem_map.1 hpage
  refine ⟨rfl, ?_⟩
  intro s hs
  rw [pageFor_Sections] at hs
  simp only [List.mem_singleton] at hs
  subst hs
  refine ⟨rfl, rfl, rfl, ?_⟩
  intro c hc
  rw [show (categorySection ((finalState d).functionsByMod kv.1)).Children
      = (finalState d).functionsByMod kv.1 from rfl] at hc
  rw [finalState_fbm d kv.1 hr] at hc
  obtain ⟨g, hg, hcg⟩ := List.mem_flatMap.1 hc
  obtain ⟨fn, hfn, hp, rfl⟩ := mem_sectionsOfFile.1 hcg
  exact ⟨rfl, rfl⟩

/-- C9 witness over the mixed directory. -/
theorem c9_tree_shape_witness :
    ∃ idx, IndexDir none rangeId dirMixed = .ok idx
      ∧ ∀ lib ∈ idx.Libraries, ∀ page ∈ lib.Pages,
          page.Sections.length = 1
            ∧ ∀ s ∈ page.Sections,
                s.ID = "func" ∧ s.Label = "Functions" ∧ s.Category = true
                  ∧ ∀ c ∈ s.Children, c.Category = false ∧ c.Children = [] :=
  c9_tree_shape rangeId dirMixed rfl (by decide)

/-- C10: when no discovered file survives the test-fixture skip (in
particular when no `.py`/`.py3` file exists at all), the run still
succeeds, with zero file and byte counts, exactly one (placeholder)
Library and an empty Pages sequence — for any context and range order. -/
theorem c10_empty_corpus (ctx : Ctx) (σ : RangeOrder) (d : DirFS)
    (hσ : RangeOrder.Valid σ) (hw : d.walkError = none)
    (hskip : ∀ f ∈ sourcesOf d, isTestPath f.path = true) :
    IndexDir ctx σ d
      = .ok (Index.mk LatestVersion LanguagePython 0 0
          [Library.mk "TODO" "TODO" "TODO" "TODO" "TODO" []]) := by
  unfold IndexDir
  rw [hw, runFiles_all_skipped ctx (sourcesOf d) _ hskip]
  have hσnil : σ [] = [] := List.Perm.eq_nil (hσ [])
  show Except.ok (Index.mk LatestVersion LanguagePython 0 0
      [Library.mk "TODO" "TODO" "TODO" "TODO" "TODO"
        ((σ []).map fun kv => pageFor (fun _ => []) kv.1 kv.2)]) = _
  rw [hσnil]
  rfl

/-- C10 witness: a cancelled context and a directory whose only Python
file is a test fixture still produce the empty Index. -/
theorem c10_empty_corpus_witness :
    IndexDir (some 0) rangeId dirOnlyTests
      = .ok (Index.mk LatestVersion LanguagePython 0 0
          [Library.mk "TODO" "TODO" "TODO" "TODO" "TODO" []]) :=
  c10_empty_corpus (some 0) rangeId dirOnlyTests (fun l => List.Perm.refl l) rfl (by decide)
